import Mathlib

/-!
Shallow embedding of `indra/assemblers/indranet/net.py` (class `IndraNet`):
table ingestion (`from_df`), flattening to a directed graph (`to_digraph`)
and to a signed graph (`to_signed_graph`), and the complementary-belief
aggregation strategy (`_complementary_belief`).

Modelling conventions:
- pandas cell values that can be `None`, NaN or data are modelled by `PyVal`;
  Python's `x is None` test is `x = PyVal.pynone`.
- real numbers (beliefs) are modelled by `ℚ` (exact arithmetic); the
  extended-precision floating-point trap of numpy (`np.seterr(all='raise')`
  plus `FloatingPointError`) is abstracted as an `Option String` parameter:
  `none` means the arithmetic succeeded, `some err` means the trap fired
  with message `err`.
- networkx node/edge attribute dicts are association lists in insertion
  order; graph node and edge sets are lists in insertion order.
-/

/-- Model of a Python/pandas cell value: `None`, float NaN, or plain data. -/
inductive PyVal where
  | pynone : PyVal
  | pynan : PyVal
  | pystr : String → PyVal
  | pyint : Int → PyVal
  deriving DecidableEq, Repr

/-- `source_counts`: mapping source name → occurrence count. -/
abbrev SourceCounts := List (String × Nat)

/-- The mandatory per-edge attributes of a raw edge (lines 94-101 of net.py). -/
structure EdgeData where
  stmt_hash : Int
  stmt_type : String
  evidence_count : Nat
  belief : ℚ
  source_counts : SourceCounts
  extra : List (String × PyVal)
  deriving DecidableEq, Repr

/-- One row of the input DataFrame, with the mandatory columns typed and
the non-mandatory columns as an association list `extras` keyed by column
name. -/
structure Row where
  agA_name : PyVal
  agB_name : PyVal
  agA_ns : PyVal
  agA_id : PyVal
  agB_ns : PyVal
  agB_id : PyVal
  stmt_type : String
  evidence_count : Nat
  stmt_hash : Int
  belief : ℚ
  source_counts : SourceCounts
  extras : List (String × PyVal)
  deriving DecidableEq, Repr

/-- The input table: its column names and its rows (row order = iteration
order of `df.iterrows()`). -/
structure DataFrame where
  columns : List String
  rows : List Row
  deriving DecidableEq, Repr

/-- Node attribute dict: insertion-ordered association list, as built by
`graph.add_node(name, ns=..., id=..., **extra)`. -/
abbrev NodeAttrs := List (String × PyVal)

/-- A raw (multigraph) edge: ordered endpoints plus its attribute bundle. -/
structure RawEdge where
  u : PyVal
  v : PyVal
  data : EdgeData
  deriving DecidableEq, Repr

/-- The `IndraNet` multigraph: nodes (name, attrs) and raw edges, both in
insertion order. Parallel edges between the same ordered pair are kept as
separate list entries (networkx edge keys = positions). -/
structure IGraph where
  nodes : List (PyVal × NodeAttrs)
  edges : List RawEdge
  deriving DecidableEq, Repr

def IGraph.empty : IGraph := ⟨[], []⟩

/-- Node names present in the graph (the keys of networkx's node dict). -/
def IGraph.nodeNames (g : IGraph) : List PyVal := g.nodes.map Prod.fst

/-- `graph.add_node(name, **attrs)` guarded by `name not in graph.nodes`
(lines 87-92): a no-op when the name is already a node. -/
def addNodeIfAbsent (g : IGraph) (name : PyVal) (attrs : NodeAttrs) : IGraph :=
  if name ∈ g.nodeNames then g
  else { g with nodes := g.nodes ++ [(name, attrs)] }

/-- `graph.add_edge(**ed)` (line 102): always creates a fresh parallel edge;
networkx would auto-create missing endpoint nodes with empty attrs. -/
def addEdge (g : IGraph) (e : RawEdge) : IGraph :=
  let g1 := addNodeIfAbsent g e.u []
  let g2 := addNodeIfAbsent g1 e.v []
  { g2 with edges := g2.edges ++ [e] }

/-- The mandatory column list (lines 22-25 of net.py). -/
def mandatory_columns : List String :=
  ["agA_name", "agB_name", "agA_ns", "agA_id", "agB_ns", "agB_id",
   "stmt_type", "evidence_count", "stmt_hash", "belief", "source_counts"]

/-- The schema error raised at lines 52-54: a `ValueError` whose message
names the columns in `mandatory_columns` ("Missing one or more columns of
%s in data frame"). `namedColumns` is the column list the message carries. -/
structure SchemaError where
  namedColumns : List String
  deriving DecidableEq, Repr

/-- State threaded through the row loop of `from_df`: the graph under
construction, the skip counter, and the warnings logged so far. -/
structure BuildState where
  graph : IGraph
  skipped : Nat
  logs : List String
  deriving DecidableEq, Repr

/-- Warning logged for a skipped row (line 70). -/
def skipMsg (index : Nat) : String :=
  "None found as node (index " ++ toString index ++ ")"

/-- Summary warning logged when `skipped` is nonzero (line 104). -/
def summaryMsg (skipped : Nat) : String :=
  "Skipped " ++ toString skipped ++ " edges with None as node"

/-- The row test at line 68: `row['agA_name'] is None or row['agB_name'] is
None`. Python's `is None` is identity with the `None` object, so NaN does
not satisfy it. -/
def isNullRow (r : Row) : Bool :=
  r.agA_name = PyVal.pynone ∨ r.agB_name = PyVal.pynone

/-- Node-A extra attributes of a row: values of non-mandatory columns whose
name starts with `agA_` (lines 59-60, 76-78). -/
def nodeAattrs (r : Row) : List (String × PyVal) :=
  r.extras.filter (fun p => p.1.startsWith "agA_")

/-- Node-B extra attributes of a row (lines 61-62, 79-81). -/
def nodeBattrs (r : Row) : List (String × PyVal) :=
  r.extras.filter (fun p => p.1.startsWith "agB_")

/-- Extra edge attributes of a row: values of non-mandatory columns not
starting with `ag` (lines 63-64, 82-84). -/
def edgeAttrs (r : Row) : List (String × PyVal) :=
  r.extras.filter (fun p => ¬ p.1.startsWith "ag")

/-- The edge-data bundle assembled at lines 94-101. -/
def edgeDataOf (r : Row) : EdgeData :=
  { stmt_hash := r.stmt_hash
    stmt_type := r.stmt_type
    evidence_count := r.evidence_count
    belief := r.belief
    source_counts := r.source_counts
    extra := edgeAttrs r }

/-- The graph mutations of one non-skipped row (lines 86-102): add the two
endpoint nodes if absent, then add the edge. -/
def graphStep (g : IGraph) (r : Row) : IGraph :=
  let g1 := addNodeIfAbsent g r.agA_name
    ([("ns", r.agA_ns), ("id", r.agA_id)] ++ nodeAattrs r)
  let g2 := addNodeIfAbsent g1 r.agB_name
    ([("ns", r.agB_ns), ("id", r.agB_id)] ++ nodeBattrs r)
  addEdge g2 ⟨r.agA_name, r.agB_name, edgeDataOf r⟩

/-- One iteration of the row loop of `from_df` (lines 67-102). -/
def processRow (st : BuildState) (index : Nat) (r : Row) : BuildState :=
  if isNullRow r then
    { st with skipped := st.skipped + 1, logs := st.logs ++ [skipMsg index] }
  else
    { st with graph := graphStep st.graph r }

/-- The row loop of `from_df`, indices counting from `i`. -/
def buildRows (i : Nat) (st : BuildState) : List Row → BuildState
  | [] => st
  | r :: rs => buildRows (i + 1) (processRow st i r) rs

/-- Result of a successful `from_df`. -/
structure FromDfRes where
  graph : IGraph
  skipped : Nat
  logs : List String
  deriving DecidableEq, Repr

/-- `IndraNet.from_df` (lines 27-105): check the mandatory columns, then
build nodes and edges row by row, skipping null-endpoint rows, and log a
summary when any row was skipped. -/
def from_df (df : DataFrame) : Except SchemaError FromDfRes :=
  if ∀ c ∈ mandatory_columns, c ∈ df.columns then
    let st := buildRows 0 ⟨IGraph.empty, 0, []⟩ df.rows
    Except.ok
      { graph := st.graph
        skipped := st.skipped
        logs := st.logs ++ (if st.skipped ≠ 0 then [summaryMsg st.skipped] else []) }
  else
    Except.error ⟨mandatory_columns⟩

section Grouping

variable {α κ β : Type} [DecidableEq κ]

/-- `G[u][v]['statements'].append(data)` when the flattened edge exists,
`G.add_edge(..., statements=[data])` otherwise (lines 122-125, 152-155),
on an insertion-ordered association list keyed by flattened-edge key. -/
def addToGroup (acc : List (κ × List β)) (k : κ) (d : β) : List (κ × List β) :=
  if k ∈ acc.map Prod.fst then
    acc.map (fun p => if p.1 = k then (p.1, p.2 ++ [d]) else p)
  else acc ++ [(k, [d])]

/-- The flattening loop `for u, v, data in self.edges(data=True)` starting
from accumulator `acc`: each raw edge is mapped by `f` to an optional
(flattened-edge key, data) pair; `none` means the raw edge is skipped. -/
def groupFoldFrom (f : α → Option (κ × β)) (acc : List (κ × List β))
    (l : List α) : List (κ × List β) :=
  l.foldl (fun acc a =>
    match f a with
    | Option.none => acc
    | Option.some kd => addToGroup acc kd.1 kd.2) acc

/-- The flattening loop from an empty graph. -/
def groupFold (f : α → Option (κ × β)) (l : List α) : List (κ × List β) :=
  groupFoldFrom f [] l

/-- `G.has_edge` / `G[u][v]` lookup on the association list. -/
def getGroup (acc : List (κ × List β)) (k : κ) : Option (List β) :=
  (acc.find? (fun p => p.1 = k)).map Prod.snd

/-- The data items `f` sends to key `k`, in list order. -/
def itemsFor (f : α → Option (κ × β)) (k : κ) (l : List α) : List β :=
  ((l.filterMap f).filter (fun p => p.1 = k)).map Prod.snd

end Grouping

/-- `IndraNet.to_digraph` grouping phase (lines 120-125): one flattened
edge per ordered node pair, holding the grouped raw-edge bundles. -/
def to_digraph_grouped (g : IGraph) : List ((PyVal × PyVal) × List EdgeData) :=
  groupFold (fun e => Option.some ((e.u, e.v), e.data)) g.edges

/-- `data['stmt_type'] in sign_dict` / `sign_dict[data['stmt_type']]`
(lines 149-151): first-match lookup in the sign mapping. -/
def signLookup (sign_dict : List (String × Int)) (t : String) : Option Int :=
  (sign_dict.find? (fun p => p.1 = t)).map Prod.snd

/-- `IndraNet.to_signed_graph` grouping phase (lines 147-155): raw edges
whose `stmt_type` is not in `sign_dict` are skipped; others are grouped by
(ordered pair, sign), the sign being the networkx edge key. -/
def to_signed_grouped (sign_dict : List (String × Int)) (g : IGraph) :
    List ((PyVal × PyVal × Int) × List EdgeData) :=
  groupFold (fun e =>
    match signLookup sign_dict e.data.stmt_type with
    | Option.none => Option.none
    | Option.some s => Option.some ((e.u, e.v, s), e.data)) g.edges

/-- `NP_PRECISION` (line 15): `10 ** -np.finfo(np.longfloat).precision`;
on x86-64 the 80-bit long double has `precision = 18`, so this is 1e-18. -/
def NP_PRECISION : ℚ := 1 / 10 ^ 18

/-- The aggregate formula of `_complementary_belief` (lines 207-209) over
exact arithmetic: `1 - prod(1 - belief_i)`. -/
def compFormula (belief_list : List ℚ) : ℚ :=
  1 - (belief_list.map (fun b => 1 - b)).prod

/-- The warning logged on a `FloatingPointError` (lines 211-212); `%.0e`
renders `Decimal(NP_PRECISION * 10)` as `1e-17`. -/
def fallbackMsg (err : String) : String :=
  err ++ ": Resetting ag_belief to 10*np.longfloat precision (1e-17)"

/-- `_complementary_belief` (lines 203-214): extract the grouped beliefs
and compute `1 - prod(1 - b_i)`; if the numpy trap fires (`fpFail = some
err`), log a warning and return `NP_PRECISION * 10` instead. Returns the
belief and the warnings emitted. -/
def complementary_belief (fpFail : Option String) (statements : List EdgeData) :
    ℚ × List String :=
  let belief_list := statements.map (fun s => s.belief)
  match fpFail with
  | Option.none => (compFormula belief_list, [])
  | Option.some err => (NP_PRECISION * 10, [fallbackMsg err])

/-- A flattened edge after `_update_edge_belief`: the grouped statements
and the aggregated belief. -/
structure FlatEdge where
  statements : List EdgeData
  belief : ℚ
  deriving DecidableEq, Repr

/-- `_update_edge_belief(G, 'complementary_belief')` (lines 185-187): set
each flattened edge's belief to `_complementary_belief(G, e)`. `fpFail`
gives the abstract floating-point outcome per edge. -/
def update_edge_belief_comp {κ : Type} (fpFail : κ → Option String)
    (G : List (κ × List EdgeData)) : List (κ × FlatEdge) :=
  G.map (fun p => (p.1, ⟨p.2, (complementary_belief (fpFail p.1) p.2).1⟩))

/-- `to_digraph(flattening_method='complementary_belief')` (lines 107-126). -/
def to_digraph_comp (fpFail : PyVal × PyVal → Option String) (g : IGraph) :
    List ((PyVal × PyVal) × FlatEdge) :=
  update_edge_belief_comp fpFail (to_digraph_grouped g)

/-! ### Lemmas about the grouping fold -/

section GroupingLemmas

variable {α κ β : Type} [DecidableEq κ]

theorem getGroup_nil (k : κ) : getGroup ([] : List (κ × List β)) k = Option.none := rfl

theorem getGroup_cons (p : κ × List β) (ps : List (κ × List β)) (k : κ) :
    getGroup (p :: ps) k = if p.1 = k then Option.some p.2 else getGroup ps k := by
  by_cases h : p.1 = k
  · simp [getGroup, List.find?_cons_of_pos, h]
  · simp [getGroup, List.find?_cons_of_neg, h]

theorem getGroup_eq_none_iff (acc : List (κ × List β)) (k : κ) :
    getGroup acc k = Option.none ↔ k ∉ acc.map Prod.fst := by
  induction acc with
  | nil => simp [getGroup_nil]
  | cons p ps ih =>
    rw [getGroup_cons]
    by_cases hpk : p.1 = k
    · simp [hpk]
    · have h2 : ¬ k = p.1 := fun h => hpk h.symm
      simp [hpk, h2, ih]

theorem getGroup_map_update (acc : List (κ × List β)) (k : κ) (d : β) (k' : κ) :
    getGroup (acc.map (fun p => if p.1 = k then (p.1, p.2 ++ [d]) else p)) k' =
      if k' = k then (getGroup acc k).map (fun xs => xs ++ [d])
      else getGroup acc k' := by
  induction acc with
  | nil => simp [getGroup_nil]
  | cons p ps ih =>
    by_cases hpk : p.1 = k <;> by_cases hk' : k' = k
    · subst hk'
      simp [getGroup_cons, hpk]
    · have h2 : ¬ p.1 = k' := fun h => hk' (h.symm.trans hpk)
      have h3 : ¬ k = k' := fun h => h2 (hpk.trans h)
      simp [getGroup_cons, hpk, hk', h2, h3, ih]
    · subst hk'
      simp [getGroup_cons, hpk, ih]
    · simp [getGroup_cons, hpk, hk', ih]

theorem getGroup_append (acc bs : List (κ × List β)) (k : κ) :
    getGroup (acc ++ bs) k = (getGroup acc k).or (getGroup bs k) := by
  simp only [getGroup, List.find?_append]
  cases h : acc.find? (fun p => p.1 = k) <;> simp [Option.or]

theorem getGroup_addToGroup (acc : List (κ × List β)) (k : κ) (d : β) (k' : κ) :
    getGroup (addToGroup acc k d) k' =
      if k' = k then Option.some ((getGroup acc k).getD [] ++ [d])
      else getGroup acc k' := by
  unfold addToGroup
  by_cases hmem : k ∈ acc.map Prod.fst
  · rw [if_pos hmem, getGroup_map_update]
    by_cases hk' : k' = k
    · rw [if_pos hk', if_pos hk']
      cases h : getGroup acc k with
      | none => exact absurd ((getGroup_eq_none_iff acc k).mp h) (by simpa using hmem)
      | some xs => simp
    · rw [if_neg hk', if_neg hk']
  · rw [if_neg hmem, getGroup_append]
    by_cases hk' : k' = k
    · rw [if_pos hk', hk']
      rw [(getGroup_eq_none_iff acc k).mpr hmem]
      rw [getGroup_cons, getGroup_nil]
      simp [Option.or]
    · rw [if_neg hk', getGroup_cons, getGroup_nil]
      have h2 : ¬ ((k, [d]) : κ × List β).1 = k' := fun h => hk' h.symm
      rw [if_neg h2]
      cases getGroup acc k' <;> rfl

theorem itemsFor_nil (f : α → Option (κ × β)) (k : κ) : itemsFor f k [] = [] := rfl

theorem itemsFor_cons_none (f : α → Option (κ × β)) (k : κ) (a : α) (l : List α)
    (h : f a = Option.none) : itemsFor f k (a :: l) = itemsFor f k l := by
  simp [itemsFor, List.filterMap_cons, h]

theorem itemsFor_cons_some (f : α → Option (κ × β)) (k : κ) (a : α) (l : List α)
    (kd : κ × β) (h : f a = Option.some kd) :
    itemsFor f k (a :: l) =
      if kd.1 = k then kd.2 :: itemsFor f k l else itemsFor f k l := by
  by_cases hk : kd.1 = k
  · simp [itemsFor, List.filterMap_cons, h, hk]
  · simp [itemsFor, List.filterMap_cons, h, hk]

/-- How one fold step combines the group already present with the items the
remaining list contributes. -/
def combineG {β : Type} (o : Option (List β)) (ys : List β) : Option (List β) :=
  match o, ys with
  | Option.some xs, ys => Option.some (xs ++ ys)
  | Option.none, [] => Option.none
  | Option.none, y :: ys => Option.some (y :: ys)

theorem getGroup_groupFoldFrom (f : α → Option (κ × β)) (l : List α)
    (acc : List (κ × List β)) (k : κ) :
    getGroup (groupFoldFrom f acc l) k = combineG (getGroup acc k) (itemsFor f k l) := by
  induction l generalizing acc with
  | nil =>
    simp only [groupFoldFrom, List.foldl_nil, itemsFor_nil]
    cases getGroup acc k <;> simp [combineG]
  | cons a l ih =>
    have hstep : groupFoldFrom f acc (a :: l) =
        groupFoldFrom f (match f a with
          | Option.none => acc
          | Option.some kd => addToGroup acc kd.1 kd.2) l := by
      simp [groupFoldFrom, List.foldl_cons]
    rw [hstep]
    cases hfa : f a with
    | none =>
      rw [itemsFor_cons_none f k a l hfa]
      exact ih acc
    | some kd =>
      rw [itemsFor_cons_some f k a l kd hfa, ih (addToGroup acc kd.1 kd.2),
        getGroup_addToGroup]
      by_cases hk : kd.1 = k
      · rw [if_pos hk, if_pos hk.symm, hk]
        cases hacc : getGroup acc k with
        | none => simp [combineG]
        | some xs => simp [combineG]
      · rw [if_neg hk, if_neg (fun h => hk h.symm)]

theorem getGroup_groupFold (f : α → Option (κ × β)) (l : List α) (k : κ) :
    getGroup (groupFold f l) k =
      match itemsFor f k l with
      | [] => Option.none
      | y :: ys => Option.some (y :: ys) := by
  rw [groupFold, getGroup_groupFoldFrom, getGroup_nil]
  cases itemsFor f k l <;> rfl

theorem keys_addToGroup (acc : List (κ × List β)) (k : κ) (d : β) :
    (addToGroup acc k d).map Prod.fst =
      if k ∈ acc.map Prod.fst then acc.map Prod.fst else acc.map Prod.fst ++ [k] := by
  unfold addToGroup
  by_cases hmem : k ∈ acc.map Prod.fst
  · rw [if_pos hmem, if_pos hmem, List.map_map]
    apply List.map_congr_left
    intro p _
    by_cases hp : p.1 = k <;> simp [hp]
  · rw [if_neg hmem, if_neg hmem]
    simp

theorem keys_nodup_addToGroup (acc : List (κ × List β)) (k : κ) (d : β)
    (h : (acc.map Prod.fst).Nodup) : ((addToGroup acc k d).map Prod.fst).Nodup := by
  rw [keys_addToGroup]
  by_cases hmem : k ∈ acc.map Prod.fst
  · rwa [if_pos hmem]
  · rw [if_neg hmem, List.nodup_append]
    refine ⟨h, List.nodup_singleton k, fun x hx hx2 => ?_⟩
    rw [List.mem_singleton] at hx2
    exact hmem (hx2 ▸ hx)

theorem keys_nodup_groupFoldFrom (f : α → Option (κ × β)) (l : List α)
    (acc : List (κ × List β)) (h : (acc.map Prod.fst).Nodup) :
    ((groupFoldFrom f acc l).map Prod.fst).Nodup := by
  induction l generalizing acc with
  | nil => simpa [groupFoldFrom] using h
  | cons a l ih =>
    have hstep : groupFoldFrom f acc (a :: l) =
        groupFoldFrom f (match f a with
          | Option.none => acc
          | Option.some kd => addToGroup acc kd.1 kd.2) l := by
      simp [groupFoldFrom, List.foldl_cons]
    rw [hstep]
    cases hfa : f a with
    | none => exact ih acc h
    | some kd => exact ih _ (keys_nodup_addToGroup acc kd.1 kd.2 h)

theorem keys_nodup_groupFold (f : α → Option (κ × β)) (l : List α) :
    ((groupFold f l).map Prod.fst).Nodup :=
  keys_nodup_groupFoldFrom f l [] (by simp)

theorem mem_iff_getGroup (acc : List (κ × List β)) (h : (acc.map Prod.fst).Nodup)
    (k : κ) (xs : List β) : (k, xs) ∈ acc ↔ getGroup acc k = Option.some xs := by
  induction acc with
  | nil => simp [getGroup_nil]
  | cons p ps ih =>
    rw [List.map_cons, List.nodup_cons] at h
    rw [getGroup_cons, List.mem_cons]
    by_cases hpk : p.1 = k
    · rw [if_pos hpk]
      constructor
      · rintro (rfl | hmem)
        · rfl
        · exact absurd (List.mem_map_of_mem Prod.fst hmem) (hpk ▸ h.1)
      · intro hx
        left
        cases p
        simp only [Option.some.injEq] at hx
        simp_all
    · rw [if_neg hpk]
      constructor
      · rintro (rfl | hmem)
        · exact absurd rfl hpk
        · exact (ih h.2).mp hmem
      · intro hx
        exact Or.inr ((ih h.2).mpr hx)

theorem mem_groupFold_iff (f : α → Option (κ × β)) (l : List α) (k : κ) (xs : List β) :
    (k, xs) ∈ groupFold f l ↔ (itemsFor f k l ≠ [] ∧ xs = itemsFor f k l) := by
  rw [mem_iff_getGroup _ (keys_nodup_groupFold f l), getGroup_groupFold]
  cases hit : itemsFor f k l with
  | nil => simp
  | cons y ys => simp [eq_comm]

end GroupingLemmas

/-! ### Instantiation to the two flatteners -/

theorem mem_keys_groupFold {α κ β : Type} [DecidableEq κ]
    (f : α → Option (κ × β)) (l : List α) (k : κ) :
    k ∈ (groupFold f l).map Prod.fst ↔ itemsFor f k l ≠ [] := by
  constructor
  · intro hmem hit
    have h0 : getGroup (groupFold f l) k = Option.none := by
      rw [getGroup_groupFold, hit]
    exact (getGroup_eq_none_iff _ k).mp h0 hmem
  · intro hne
    by_contra hmem
    have h0 := (getGroup_eq_none_iff (groupFold f l) k).mpr hmem
    rw [getGroup_groupFold] at h0
    cases hit : itemsFor f k l with
    | nil => exact hne hit
    | cons y ys => rw [hit] at h0; cases h0

/-- The raw edges a directed flattened edge groups are exactly the raw
edges between its ordered node pair, in order. -/
theorem itemsFor_digraph (edges : List RawEdge) (u v : PyVal) :
    itemsFor (fun e => Option.some ((e.u, e.v), e.data)) (u, v) edges =
      (edges.filter (fun e => e.u = u ∧ e.v = v)).map RawEdge.data := by
  induction edges with
  | nil => rfl
  | cons e es ih =>
    rw [itemsFor_cons_some (fun e => Option.some ((e.u, e.v), e.data)) (u, v) e es
      ((e.u, e.v), e.data) rfl, List.filter_cons]
    by_cases h1 : e.u = u <;> by_cases h2 : e.v = v <;>
      simp [h1, h2, Prod.ext_iff, ih]

/-- The raw edges a signed flattened edge groups are exactly the raw edges
between its ordered pair whose statement type maps to its sign, in order. -/
theorem itemsFor_signed (sd : List (String × Int)) (edges : List RawEdge)
    (u v : PyVal) (s : Int) :
    itemsFor (fun e =>
        match signLookup sd e.data.stmt_type with
        | Option.none => Option.none
        | Option.some s' => Option.some ((e.u, e.v, s'), e.data)) (u, v, s) edges =
      (edges.filter (fun e => e.u = u ∧ e.v = v ∧
        signLookup sd e.data.stmt_type = Option.some s)).map RawEdge.data := by
  induction edges with
  | nil => rfl
  | cons e es ih =>
    cases hs : signLookup sd e.data.stmt_type with
    | none =>
      rw [itemsFor_cons_none _ _ _ _ (by simp [hs]), List.filter_cons]
      simp [hs, ih]
    | some s' =>
      rw [itemsFor_cons_some _ _ _ _ ((e.u, e.v, s'), e.data) (by simp [hs]),
        List.filter_cons]
      by_cases h1 : e.u = u <;> by_cases h2 : e.v = v <;> by_cases h3 : s' = s <;>
        simp [h1, h2, h3, hs, Prod.ext_iff, ih]

/-- C4: directed flattening is a pure grouping: exactly one flattened edge
per ordered node pair that has at least one raw edge, none for pairs
without raw edges, and each flattened edge's grouped statement list equals
(in content and order, hence as a multiset) the data — in particular the
`stmt_hash` values — of the raw edges between that ordered pair. -/
theorem to_digraph_pure_grouping (g : IGraph) :
    ((to_digraph_grouped g).map Prod.fst).Nodup ∧
    (∀ u v : PyVal, (u, v) ∈ (to_digraph_grouped g).map Prod.fst ↔
      ∃ e ∈ g.edges, e.u = u ∧ e.v = v) ∧
    (∀ (u v : PyVal) (stmts : List EdgeData), ((u, v), stmts) ∈ to_digraph_grouped g →
      stmts = (g.edges.filter (fun e => e.u = u ∧ e.v = v)).map RawEdge.data ∧
      stmts.map EdgeData.stmt_hash =
        ((g.edges.filter (fun e => e.u = u ∧ e.v = v)).map RawEdge.data).map
          EdgeData.stmt_hash) := by
  unfold to_digraph_grouped
  refine ⟨keys_nodup_groupFold _ _, fun u v => ?_, fun u v stmts hmem => ?_⟩
  · rw [mem_keys_groupFold, itemsFor_digraph]
    constructor
    · intro hne
      rcases List.exists_mem_of_ne_nil _ hne with ⟨d, hd⟩
      rcases List.mem_map.mp hd with ⟨e, he, _⟩
      rcases List.mem_filter.mp he with ⟨hee, hcond⟩
      exact ⟨e, hee, by simpa using hcond⟩
    · rintro ⟨e, he, h1, h2⟩
      intro hnil
      have hmem2 : e ∈ g.edges.filter (fun e => e.u = u ∧ e.v = v) :=
        List.mem_filter.mpr ⟨he, by simp [h1, h2]⟩
      rw [List.map_eq_nil_iff] at hnil
      rw [hnil] at hmem2
      cases hmem2
  · have h := (mem_groupFold_iff _ _ _ _).mp hmem
    rw [itemsFor_digraph] at h
    exact ⟨h.2, by rw [h.2]⟩

/-! ### Example inputs used by witnesses -/

/-- A sample edge-data bundle. -/
def exD (h : Int) (t : String) (b : ℚ) : EdgeData :=
  ⟨h, t, 1, b, [("src", 1)], []⟩

def exA : PyVal := PyVal.pystr "A"
def exB : PyVal := PyVal.pystr "B"
def exC : PyVal := PyVal.pystr "C"

/-- The spec scenario multigraph: A→B (belief 0.9, Activation), A→B
(belief 0.8, Activation), plus one A→C Inhibition edge. -/
def exG1 : IGraph :=
  ⟨[(exA, []), (exB, []), (exC, [])],
   [⟨exA, exB, exD 1 "Activation" (9/10)⟩,
    ⟨exA, exB, exD 2 "Activation" (4/5)⟩,
    ⟨exA, exC, exD 3 "Inhibition" (1/2)⟩]⟩

/-- The default-style sign mapping (Activation positive, Inhibition
negative). -/
def exSd1 : List (String × Int) := [("Activation", 1), ("Inhibition", -1)]

/-- A sign mapping with three distinct sign values. -/
def exSd3 : List (String × Int) := [("A", 0), ("B", 1), ("C", 2)]

/-- Three parallel X→Y raw edges whose types map to three distinct signs
under `exSd3`. -/
def exG3 : IGraph :=
  ⟨[(PyVal.pystr "X", []), (PyVal.pystr "Y", [])],
   [⟨PyVal.pystr "X", PyVal.pystr "Y", exD 1 "A" (1/2)⟩,
    ⟨PyVal.pystr "X", PyVal.pystr "Y", exD 2 "B" (1/2)⟩,
    ⟨PyVal.pystr "X", PyVal.pystr "Y", exD 3 "C" (1/2)⟩]⟩

/-- Witness for C4 at the spec scenario: the single flattened A→B edge
groups exactly the two A→B raw edges, in insertion order. -/
theorem to_digraph_pure_grouping_witness :
    ([exD 1 "Activation" (9/10), exD 2 "Activation" (4/5)] : List EdgeData) =
      (exG1.edges.filter (fun e => e.u = exA ∧ e.v = exB)).map RawEdge.data :=
  ((to_digraph_pure_grouping exG1).2.2 exA exB
    [exD 1 "Activation" (9/10), exD 2 "Activation" (4/5)] (List.Mem.head _)).1

/-! ### C5: signed flattening -/

theorem signs_nodup_of_keys_nodup (u v : PyVal)
    (M : List ((PyVal × PyVal × Int) × List EdgeData))
    (hk : (M.map Prod.fst).Nodup) (hall : ∀ q ∈ M, q.1.1 = u ∧ q.1.2.1 = v) :
    (M.map (fun q => q.1.2.2)).Nodup := by
  induction M with
  | nil => exact List.nodup_nil
  | cons q M ih =>
    rw [List.map_cons, List.nodup_cons] at hk ⊢
    refine ⟨fun hmem => ?_, ih hk.2 (fun q' hq' => hall q' (List.mem_cons_of_mem q hq'))⟩
    rcases List.mem_map.mp hmem with ⟨q', hq', hs⟩
    apply hk.1
    have h1 := hall q (List.mem_cons_self q M)
    have h2 := hall q' (List.mem_cons_of_mem q hq')
    have hkey : q'.1 = q.1 :=
      Prod.ext (h2.1.trans h1.1.symm) (Prod.ext (h2.2.trans h1.2.symm) hs)
    rw [← hkey]
    exact List.mem_map_of_mem Prod.fst hq'

theorem length_le_two_of_nodup_signs (l : List Int) (hnd : l.Nodup)
    (hsub : ∀ x ∈ l, x = 1 ∨ x = -1) : l.length ≤ 2 := by
  have h1 : l.toFinset ⊆ ({1, -1} : Finset ℤ) := by
    intro x hx
    rcases hsub x (List.mem_toFinset.mp hx) with h | h <;> simp [h]
  have h2 := Finset.card_le_card h1
  rw [List.toFinset_card_of_nodup hnd] at h2
  exact h2.trans (by decide)

/-- C5 (amended): signed flattening never produces two flattened edges
with the same (ordered pair, sign) key; each signed flattened edge groups
exactly the raw edges of its pair whose type maps to its sign — so a raw
edge whose `stmt_type` is absent from the sign mapping contributes to no
flattened edge; and when the sign mapping only takes the values +1/−1, at
most 2 flattened edges exist per ordered node pair. -/
theorem to_signed_graph_flattening (sd : List (String × Int)) (g : IGraph) :
    ((to_signed_grouped sd g).map Prod.fst).Nodup ∧
    (∀ (u v : PyVal) (s : Int) (stmts : List EdgeData),
      ((u, v, s), stmts) ∈ to_signed_grouped sd g →
        stmts = (g.edges.filter (fun e => e.u = u ∧ e.v = v ∧
          signLookup sd e.data.stmt_type = Option.some s)).map RawEdge.data ∧
        ∀ d ∈ stmts, signLookup sd d.stmt_type = Option.some s) ∧
    ((∀ p ∈ sd, p.2 = 1 ∨ p.2 = -1) → ∀ u v : PyVal,
      ((to_signed_grouped sd g).filter
        (fun q => q.1.1 = u ∧ q.1.2.1 = v)).length ≤ 2) := by
  refine ⟨?_, fun u v s stmts hmem => ?_, fun hsd u v => ?_⟩
  · exact keys_nodup_groupFold _ _
  · unfold to_signed_grouped at hmem
    have h := (mem_groupFold_iff _ _ _ _).mp hmem
    rw [itemsFor_signed] at h
    refine ⟨h.2, fun d hd => ?_⟩
    rw [h.2] at hd
    rcases List.mem_map.mp hd with ⟨e, he, rfl⟩
    have hcond := (List.mem_filter.mp he).2
    simp only [decide_eq_true_eq] at hcond
    exact hcond.2.2
  · have hnd : ((to_signed_grouped sd g).map Prod.fst).Nodup := by
      unfold to_signed_grouped
      exact keys_nodup_groupFold _ _
    have hsubl := List.filter_sublist (p := fun q => decide (q.1.1 = u ∧ q.1.2.1 = v))
      (to_signed_grouped sd g)
    have hknd : (((to_signed_grouped sd g).filter
        (fun q => q.1.1 = u ∧ q.1.2.1 = v)).map Prod.fst).Nodup :=
      hnd.sublist (hsubl.map Prod.fst)
    have hall : ∀ q ∈ (to_signed_grouped sd g).filter
        (fun q => q.1.1 = u ∧ q.1.2.1 = v), q.1.1 = u ∧ q.1.2.1 = v := by
      intro q hq
      have := (List.mem_filter.mp hq).2
      simpa using this
    have hsnd := signs_nodup_of_keys_nodup u v _ hknd hall
    have hsubs : ∀ x ∈ ((to_signed_grouped sd g).filter
        (fun q => q.1.1 = u ∧ q.1.2.1 = v)).map (fun q => q.1.2.2),
        x = 1 ∨ x = -1 := by
      intro x hx
      rcases List.mem_map.mp hx with ⟨q, hq, rfl⟩
      have hqSG : q ∈ to_signed_grouped sd g := (List.mem_filter.mp hq).1
      obtain ⟨⟨qu, qv, qs⟩, stmts⟩ := q
      unfold to_signed_grouped at hqSG
      have hchar := (mem_groupFold_iff _ _ _ _).mp hqSG
      rw [itemsFor_signed] at hchar
      rcases List.exists_mem_of_ne_nil _ hchar.1 with ⟨d, hd⟩
      rcases List.mem_map.mp hd with ⟨e, he, _⟩
      have hcond := (List.mem_filter.mp he).2
      simp only [decide_eq_true_eq] at hcond
      have hfind := hcond.2.2
      unfold signLookup at hfind
      rcases Option.map_eq_some'.mp hfind with ⟨p, hp, hps⟩
      have hpsd := List.mem_of_find?_eq_some hp
      simpa [hps] using hsd p hpsd
    have hlen := length_le_two_of_nodup_signs _ hsnd hsubs
    simpa using hlen

/-- C5 counterexample: with a sign mapping taking three distinct sign
values, the signed view has three flattened edges for the ordered pair
(X, Y) — the claim's bound of at most 2 per ordered pair fails for this
sign mapping. -/
theorem to_signed_graph_three_edges_per_pair :
    ¬ (((to_signed_grouped exSd3 exG3).filter
      (fun q => q.1.1 = PyVal.pystr "X" ∧ q.1.2.1 = PyVal.pystr "Y")).length ≤ 2) := by
  decide

/-- Witness for C5 at the spec scenario with the default ±1 sign mapping:
at most two signed flattened edges for (A, B), and the +1 flattened edge
groups exactly the two Activation raw edges. -/
theorem to_signed_graph_flattening_witness :
    ((to_signed_grouped exSd1 exG1).filter
      (fun q => q.1.1 = exA ∧ q.1.2.1 = exB)).length ≤ 2 ∧
    ([exD 1 "Activation" (9/10), exD 2 "Activation" (4/5)] : List EdgeData) =
      (exG1.edges.filter (fun e => e.u = exA ∧ e.v = exB ∧
        signLookup exSd1 e.data.stmt_type = Option.some 1)).map RawEdge.data :=
  ⟨(to_signed_graph_flattening exSd1 exG1).2.2 (by decide) exA exB,
   ((to_signed_graph_flattening exSd1 exG1).2.1 exA exB 1
     [exD 1 "Activation" (9/10), exD 2 "Activation" (4/5)] (List.Mem.head _)).1⟩

/-! ### C1, C2: the complementary-belief strategy -/

/-- C1: in the complementary-belief flattened digraph, every flattened
edge whose aggregation ran without arithmetic failure carries belief
`1 − ∏ (1 − b_i)` over the beliefs of its grouped statement list. -/
theorem to_digraph_complementary_formula (fpFail : PyVal × PyVal → Option String)
    (g : IGraph) (k : PyVal × PyVal) (fe : FlatEdge)
    (hmem : (k, fe) ∈ to_digraph_comp fpFail g) (hok : fpFail k = Option.none) :
    fe.belief = 1 - ((fe.statements.map EdgeData.belief).map (fun b => 1 - b)).prod := by
  unfold to_digraph_comp update_edge_belief_comp at hmem
  rcases List.mem_map.mp hmem with ⟨p, hp, heq⟩
  have h1 : p.1 = k := congrArg Prod.fst heq
  have h2 : (⟨p.2, (complementary_belief (fpFail p.1) p.2).1⟩ : FlatEdge) = fe :=
    congrArg Prod.snd heq
  subst h1
  rw [← h2]
  simp [complementary_belief, hok, compFormula]

/-- Witness for C1 at the spec scenario (beliefs 0.9 and 0.8): the
aggregate satisfies the formula and evaluates to 0.98. -/
theorem to_digraph_complementary_formula_witness :
    (FlatEdge.mk [exD 1 "Activation" (9/10), exD 2 "Activation" (4/5)]
        (complementary_belief Option.none
          [exD 1 "Activation" (9/10), exD 2 "Activation" (4/5)]).1).belief =
      1 - (([exD 1 "Activation" (9/10), exD 2 "Activation" (4/5)].map
        EdgeData.belief).map (fun b => 1 - b)).prod ∧
    (complementary_belief Option.none
      [exD 1 "Activation" (9/10), exD 2 "Activation" (4/5)]).1 = 49/50 :=
  ⟨to_digraph_complementary_formula (fun _ => Option.none) exG1 (exA, exB)
      (FlatEdge.mk [exD 1 "Activation" (9/10), exD 2 "Activation" (4/5)]
        (complementary_belief Option.none
          [exD 1 "Activation" (9/10), exD 2 "Activation" (4/5)]).1)
      (List.Mem.head _) rfl,
   by norm_num [complementary_belief, compFormula, exD]⟩

/-- C2: on an arithmetic failure the complementary strategy never
propagates it: it returns the fixed positive fallback `NP_PRECISION * 10`
and emits exactly one warning naming the originating error and the
fallback value (1e-17). -/
theorem complementary_belief_fallback (err : String) (statements : List EdgeData) :
    (complementary_belief (Option.some err) statements).1 = NP_PRECISION * 10 ∧
    0 < (complementary_belief (Option.some err) statements).1 ∧
    (complementary_belief (Option.some err) statements).2 =
      [err ++ ": Resetting ag_belief to 10*np.longfloat precision (1e-17)"] := by
  refine ⟨rfl, ?_, rfl⟩
  norm_num [complementary_belief, NP_PRECISION]

/-! ### C6, C7: algebraic properties of the aggregate -/

theorem prod_mem_unit_nonneg (l : List ℚ) (h : ∀ x ∈ l, 0 ≤ x ∧ x ≤ 1) :
    0 ≤ l.prod ∧ l.prod ≤ 1 := by
  induction l with
  | nil => norm_num
  | cons x l ih =>
    have hx := h x (List.mem_cons_self x l)
    have hl := ih (fun y hy => h y (List.mem_cons_of_mem x hy))
    rw [List.prod_cons]
    constructor
    · exact mul_nonneg hx.1 hl.1
    · calc x * l.prod ≤ 1 * 1 := mul_le_mul hx.2 hl.2 hl.1 (by norm_num)
        _ = 1 := by norm_num

theorem prod_complements_le (bs : List ℚ) (hunit : ∀ b ∈ bs, 0 ≤ b ∧ b ≤ 1) :
    ∀ b ∈ bs, (bs.map (fun x => 1 - x)).prod ≤ 1 - b := by
  induction bs with
  | nil => intro b hb; cases hb
  | cons a l ih =>
    intro b hb
    have hmap : ∀ y ∈ l.map (fun x => 1 - x), 0 ≤ y ∧ y ≤ 1 := by
      intro y hy
      rcases List.mem_map.mp hy with ⟨x, hx, rfl⟩
      have hx2 := hunit x (List.mem_cons_of_mem a hx)
      constructor <;> linarith [hx2.1, hx2.2]
    have hl := prod_mem_unit_nonneg (l.map (fun x => 1 - x)) hmap
    rw [List.map_cons, List.prod_cons]
    rcases List.mem_cons.mp hb with rfl | hbl
    · nlinarith [hl.1, hl.2, (hunit b (List.mem_cons_self b l)).1,
        (hunit b (List.mem_cons_self b l)).2]
    · have hprodle := ih (fun x hx => hunit x (List.mem_cons_of_mem a hx)) b hbl
      have ha := hunit a (List.mem_cons_self a l)
      nlinarith [hl.1, hprodle, ha.1, ha.2]

/-- C6 (amended): for every non-empty grouped belief list whose beliefs
all lie in [0, 1], the complementary aggregate is greater than or equal to
every individual belief, hence to their maximum. -/
theorem compFormula_ge_max (bs : List ℚ) (_hne : bs ≠ [])
    (hunit : ∀ b ∈ bs, 0 ≤ b ∧ b ≤ 1) : ∀ b ∈ bs, b ≤ compFormula bs := by
  intro b hb
  have h := prod_complements_le bs hunit b hb
  unfold compFormula
  linarith

/-- C6 counterexample: the grouped belief list [2, 2] has all beliefs ≥ 0,
yet its complementary aggregate is 0, strictly below the maximum belief 2:
nonnegativity alone does not give `aggregate ≥ max`. -/
theorem compFormula_not_ge_max_of_nonneg :
    (∀ b ∈ ([2, 2] : List ℚ), 0 ≤ b) ∧ (2 : ℚ) ∈ ([2, 2] : List ℚ) ∧
      compFormula [2, 2] = 0 ∧ ¬ ((2 : ℚ) ≤ compFormula [2, 2]) := by
  refine ⟨by norm_num, by norm_num, ?_, ?_⟩ <;>
    norm_num [compFormula]

/-- Witness for C6 at the spec scenario: 0.9 ≤ aggregate of [0.9, 0.8]. -/
theorem compFormula_ge_max_witness :
    (9/10 : ℚ) ≤ compFormula [9/10, 4/5] :=
  compFormula_ge_max [9/10, 4/5] (by simp) (by norm_num) (9/10) (by norm_num)

/-- C7: the complementary aggregate is invariant under permutation of the
grouped belief list (over exact arithmetic). -/
theorem compFormula_perm_invariant (bs cs : List ℚ) (h : bs.Perm cs) :
    compFormula bs = compFormula cs := by
  unfold compFormula
  rw [List.Perm.prod_eq (h.map (fun b => 1 - b))]

/-- Witness for C7: swapping the two beliefs of the spec scenario leaves
the aggregate unchanged. -/
theorem compFormula_perm_invariant_witness :
    compFormula [(9 : ℚ)/10, 4/5] = compFormula [(4 : ℚ)/5, 9/10] :=
  compFormula_perm_invariant _ _ (List.Perm.swap _ _ _)

/-! ### C3: the mandatory-column schema check -/

/-- A DataFrame with the `belief` column absent (and no rows). -/
def exDf0 : DataFrame :=
  ⟨["agA_name", "agB_name", "agA_ns", "agA_id", "agB_ns", "agB_id",
    "stmt_type", "evidence_count", "stmt_hash", "source_counts"], []⟩

/-- A DataFrame with exactly the mandatory columns (and no rows). -/
def exDf1 : DataFrame := ⟨mandatory_columns, []⟩

/-- C3 (amended): if any mandatory column is absent, `from_df` fails
before building anything, with a schema error naming the full mandatory
column list (a superset of the missing columns); when all mandatory
columns are present, `from_df` succeeds with no schema error. -/
theorem from_df_schema_check (df : DataFrame) :
    ((∃ c ∈ mandatory_columns, c ∉ df.columns) →
      from_df df = Except.error ⟨mandatory_columns⟩) ∧
    ((∀ c ∈ mandatory_columns, c ∈ df.columns) →
      ∃ res, from_df df = Except.ok res) := by
  constructor
  · rintro ⟨c, hc, hnc⟩
    unfold from_df
    rw [if_neg (fun hall => hnc (hall c hc))]
  · intro hall
    exact ⟨_, by unfold from_df; rw [if_pos hall]⟩

/-- C3 counterexample: with only `belief` missing, the schema error's
message names the full mandatory column list, which is not the list of
missing columns (`["belief"]`): the error does not identify which columns
are missing. -/
theorem from_df_error_names_all_mandatory :
    from_df exDf0 = Except.error ⟨mandatory_columns⟩ ∧
    mandatory_columns.filter (fun c => ¬ c ∈ exDf0.columns) = ["belief"] ∧
    mandatory_columns ≠ ["belief"] := by
  refine ⟨?_, by decide, by decide⟩
  rfl

/-- Witness for C3: the missing-column branch at `exDf0` and the
all-present branch at `exDf1`. -/
theorem from_df_schema_check_witness :
    from_df exDf0 = Except.error ⟨mandatory_columns⟩ ∧
    ∃ res, from_df exDf1 = Except.ok res :=
  ⟨(from_df_schema_check exDf0).1 ⟨"belief", by decide, by decide⟩,
   (from_df_schema_check exDf1).2 (by decide)⟩

/-! ### C8: null-endpoint row skipping -/

/-- Unfolding of the row loop: the final graph is the fold of the graph
step over the non-null rows only, the skip counter counts the null rows,
and the log gets one indexed skip warning per null row, in row order. -/
theorem buildRows_spec (rows : List Row) : ∀ (i : Nat) (st : BuildState),
    (buildRows i st rows).graph =
      (rows.filter (fun r => !isNullRow r)).foldl graphStep st.graph ∧
    (buildRows i st rows).skipped =
      st.skipped + (rows.filter (fun r => isNullRow r)).length ∧
    (buildRows i st rows).logs =
      st.logs ++ ((rows.enumFrom i).filter (fun p => isNullRow p.2)).map
        (fun p => skipMsg p.1) := by
  induction rows with
  | nil => intro i st; simp [buildRows]
  | cons r rs ih =>
    intro i st
    by_cases hr : isNullRow r
    · have hstep : buildRows i st (r :: rs) = buildRows (i + 1)
          { st with skipped := st.skipped + 1, logs := st.logs ++ [skipMsg i] } rs := by
        simp [buildRows, processRow, hr]
      rw [hstep]
      obtain ⟨h1, h2, h3⟩ := ih (i + 1)
        { st with skipped := st.skipped + 1, logs := st.logs ++ [skipMsg i] }
      refine ⟨?_, ?_, ?_⟩
      · rw [h1]; simp [List.filter_cons, hr]
      · rw [h2]; simp [List.filter_cons, hr]; omega
      · rw [h3]; simp [List.enumFrom_cons, List.filter_cons, hr]
    · have hstep : buildRows i st (r :: rs) = buildRows (i + 1)
          { st with graph := graphStep st.graph r } rs := by
        simp [buildRows, processRow, hr]
      rw [hstep]
      obtain ⟨h1, h2, h3⟩ := ih (i + 1) { st with graph := graphStep st.graph r }
      refine ⟨?_, ?_, ?_⟩
      · rw [h1]; simp [List.filter_cons, hr]
      · rw [h2]; simp [List.filter_cons, hr]
      · rw [h3]; simp [List.enumFrom_cons, List.filter_cons, hr]

/-- C8: when the schema check passes, `from_df` succeeds; each row with a
null endpoint name is skipped with one warning naming its row index (in
row order), contributes neither nodes nor an edge (the graph is exactly
the fold over the non-null rows), processing continues past it, the skip
count equals the number of null rows, and a single summary warning is
appended iff that count is nonzero. -/
theorem from_df_skips_null_rows (df : DataFrame)
    (hcols : ∀ c ∈ mandatory_columns, c ∈ df.columns) :
    from_df df = Except.ok
      { graph := (df.rows.filter (fun r => !isNullRow r)).foldl graphStep IGraph.empty
        skipped := (df.rows.filter (fun r => isNullRow r)).length
        logs := ((df.rows.enum.filter (fun p => isNullRow p.2)).map
            (fun p => skipMsg p.1)) ++
          (if (df.rows.filter (fun r => isNullRow r)).length ≠ 0
           then [summaryMsg ((df.rows.filter (fun r => isNullRow r)).length)]
           else []) } := by
  obtain ⟨h1, h2, h3⟩ := buildRows_spec df.rows 0 ⟨IGraph.empty, 0, []⟩
  unfold from_df
  rw [if_pos hcols]
  simp [h1, h2, h3, List.enum]

/-- A row with a null A-endpoint name. -/
def exRowNull : Row :=
  ⟨PyVal.pynone, exB, PyVal.pystr "HGNC", PyVal.pystr "1",
   PyVal.pystr "HGNC", PyVal.pystr "2", "Activation", 1, 10, 1, [("src", 1)], []⟩

/-- A valid A→B row. -/
def exRowAB : Row :=
  ⟨exA, exB, PyVal.pystr "HGNC", PyVal.pystr "1",
   PyVal.pystr "HGNC", PyVal.pystr "2", "Activation", 1, 12, 1, [("src", 1)], []⟩

/-- A row whose A-endpoint name is a float NaN (as pandas stores missing
strings). -/
def exRowNan : Row :=
  ⟨PyVal.pynan, exB, PyVal.pystr "HGNC", PyVal.pystr "1",
   PyVal.pystr "HGNC", PyVal.pystr "2", "Activation", 1, 11, 1, [("src", 1)], []⟩

/-- A DataFrame with one null-endpoint row followed by one valid row. -/
def exDf2 : DataFrame := ⟨mandatory_columns, [exRowNull, exRowAB]⟩

/-- Witness for C8 at `exDf2`: one row is null, and the result records one
skip, its indexed warning, the summary, and a graph built from the valid
row only. -/
theorem from_df_skips_null_rows_witness :
    from_df exDf2 = Except.ok
      { graph := (exDf2.rows.filter (fun r => !isNullRow r)).foldl graphStep IGraph.empty
        skipped := (exDf2.rows.filter (fun r => isNullRow r)).length
        logs := ((exDf2.rows.enum.filter (fun p => isNullRow p.2)).map
            (fun p => skipMsg p.1)) ++
          (if (exDf2.rows.filter (fun r => isNullRow r)).length ≠ 0
           then [summaryMsg ((exDf2.rows.filter (fun r => isNullRow r)).length)]
           else []) } ∧
    (exDf2.rows.filter (fun r => isNullRow r)).length = 1 :=
  ⟨from_df_skips_null_rows exDf2 (by decide), rfl⟩

/-! ### C9: node identity and node count -/

theorem addNodeIfAbsent_of_mem (g : IGraph) (name : PyVal) (attrs : NodeAttrs)
    (h : name ∈ g.nodeNames) : addNodeIfAbsent g name attrs = g := by
  unfold addNodeIfAbsent
  rw [if_pos h]

theorem nodeNames_addNodeIfAbsent (g : IGraph) (name : PyVal) (attrs : NodeAttrs) :
    (addNodeIfAbsent g name attrs).nodeNames =
      if name ∈ g.nodeNames then g.nodeNames else g.nodeNames ++ [name] := by
  unfold addNodeIfAbsent
  by_cases h : name ∈ g.nodeNames
  · rw [if_pos h, if_pos h]
  · rw [if_neg h, if_neg h]
    simp [IGraph.nodeNames]

theorem nodeNames_nodup_addNodeIfAbsent (g : IGraph) (name : PyVal) (attrs : NodeAttrs)
    (h : g.nodeNames.Nodup) : (addNodeIfAbsent g name attrs).nodeNames.Nodup := by
  rw [nodeNames_addNodeIfAbsent]
  by_cases hm : name ∈ g.nodeNames
  · rwa [if_pos hm]
  · rw [if_neg hm, List.nodup_append]
    exact ⟨h, List.nodup_singleton _,
      fun x hx hx2 => hm ((List.mem_singleton.mp hx2) ▸ hx)⟩

theorem toFinset_nodeNames_addNodeIfAbsent (g : IGraph) (name : PyVal)
    (attrs : NodeAttrs) :
    (addNodeIfAbsent g name attrs).nodeNames.toFinset =
      insert name g.nodeNames.toFinset := by
  rw [nodeNames_addNodeIfAbsent]
  by_cases hm : name ∈ g.nodeNames
  · rw [if_pos hm]
    exact (Finset.insert_eq_self.mpr (List.mem_toFinset.mpr hm)).symm
  · rw [if_neg hm, List.toFinset_append]
    ext x
    simp
    tauto

theorem graphStep_eq (g : IGraph) (r : Row) :
    graphStep g r = addEdge (addNodeIfAbsent (addNodeIfAbsent g
      r.agA_name ([("ns", r.agA_ns), ("id", r.agA_id)] ++ nodeAattrs r))
      r.agB_name ([("ns", r.agB_ns), ("id", r.agB_id)] ++ nodeBattrs r))
      ⟨r.agA_name, r.agB_name, edgeDataOf r⟩ := rfl

theorem nodeNames_addEdge (g : IGraph) (e : RawEdge) :
    (addEdge g e).nodeNames =
      (addNodeIfAbsent (addNodeIfAbsent g e.u []) e.v []).nodeNames := rfl

theorem nodeNames_graphStep_nodup (g : IGraph) (r : Row) (h : g.nodeNames.Nodup) :
    (graphStep g r).nodeNames.Nodup := by
  rw [graphStep_eq, nodeNames_addEdge]
  exact nodeNames_nodup_addNodeIfAbsent _ _ _ (nodeNames_nodup_addNodeIfAbsent _ _ _
    (nodeNames_nodup_addNodeIfAbsent _ _ _ (nodeNames_nodup_addNodeIfAbsent _ _ _ h)))

theorem toFinset_nodeNames_graphStep (g : IGraph) (r : Row) :
    (graphStep g r).nodeNames.toFinset =
      insert r.agA_name (insert r.agB_name g.nodeNames.toFinset) := by
  rw [graphStep_eq, nodeNames_addEdge, toFinset_nodeNames_addNodeIfAbsent,
    toFinset_nodeNames_addNodeIfAbsent, toFinset_nodeNames_addNodeIfAbsent,
    toFinset_nodeNames_addNodeIfAbsent]
  ext x
  simp only [Finset.mem_insert]
  tauto

theorem foldl_graphStep_nodes (rows : List Row) : ∀ (g : IGraph), g.nodeNames.Nodup →
    (rows.foldl graphStep g).nodeNames.Nodup ∧
    (rows.foldl graphStep g).nodeNames.toFinset =
      g.nodeNames.toFinset ∪
        (rows.flatMap (fun r => [r.agA_name, r.agB_name])).toFinset := by
  induction rows with
  | nil => intro g h; simp [h]
  | cons r rs ih =>
    intro g h
    rw [List.foldl_cons]
    obtain ⟨ih1, ih2⟩ := ih (graphStep g r) (nodeNames_graphStep_nodup g r h)
    refine ⟨ih1, ?_⟩
    rw [ih2, toFinset_nodeNames_graphStep]
    ext x
    simp only [Finset.mem_union, Finset.mem_insert, List.mem_toFinset,
      List.flatMap_cons, List.mem_append, List.mem_cons, List.not_mem_nil, or_false]
    tauto

/-- C9: node identity is the name: adding a node whose name already exists
is a no-op (first-seen attributes win), and `from_df`'s node count equals
the number of distinct endpoint names across non-skipped rows. -/
theorem from_df_node_identity (g : IGraph) (name : PyVal) (attrs : NodeAttrs)
    (df : DataFrame) (hmem : name ∈ g.nodeNames)
    (hcols : ∀ c ∈ mandatory_columns, c ∈ df.columns) :
    addNodeIfAbsent g name attrs = g ∧
    ∃ res, from_df df = Except.ok res ∧
      res.graph.nodeNames.Nodup ∧
      res.graph.nodeNames.length =
        ((df.rows.filter (fun r => !isNullRow r)).flatMap
          (fun r => [r.agA_name, r.agB_name])).toFinset.card := by
  obtain ⟨h1, _h2, _h3⟩ := buildRows_spec df.rows 0 ⟨IGraph.empty, 0, []⟩
  have hb := foldl_graphStep_nodes (df.rows.filter (fun r => !isNullRow r))
    IGraph.empty (by simp [IGraph.empty, IGraph.nodeNames])
  refine ⟨addNodeIfAbsent_of_mem g name attrs hmem,
    _, by unfold from_df; rw [if_pos hcols], ?_, ?_⟩
  · show (buildRows 0 ⟨IGraph.empty, 0, []⟩ df.rows).graph.nodeNames.Nodup
    rw [h1]
    exact hb.1
  · show (buildRows 0 ⟨IGraph.empty, 0, []⟩ df.rows).graph.nodeNames.length = _
    rw [h1, ← List.toFinset_card_of_nodup hb.1, hb.2]
    simp [IGraph.empty, IGraph.nodeNames]

/-- Witness for C9: re-adding node A of the scenario graph is a no-op,
and on `exDf2` (one skipped row, one valid A→B row) the node count equals
the count of distinct endpoint names of the valid rows. -/
theorem from_df_node_identity_witness :
    addNodeIfAbsent exG1 exA [("ns", PyVal.pystr "X")] = exG1 ∧
    ∃ res, from_df exDf2 = Except.ok res ∧
      res.graph.nodeNames.Nodup ∧
      res.graph.nodeNames.length =
        ((exDf2.rows.filter (fun r => !isNullRow r)).flatMap
          (fun r => [r.agA_name, r.agB_name])).toFinset.card :=
  from_df_node_identity exG1 exA [("ns", PyVal.pystr "X")] exDf2 (by decide) (by decide)

/-! ### C10: NaN endpoint names pass the None test -/

theorem agA_mem_graphStep (g : IGraph) (r : Row) :
    r.agA_name ∈ (graphStep g r).nodeNames := by
  rw [← List.mem_toFinset, toFinset_nodeNames_graphStep]
  exact Finset.mem_insert_self _ _

theorem edges_addNodeIfAbsent (g : IGraph) (name : PyVal) (attrs : NodeAttrs) :
    (addNodeIfAbsent g name attrs).edges = g.edges := by
  unfold addNodeIfAbsent
  split_ifs <;> rfl

theorem edges_addEdge (g : IGraph) (e : RawEdge) :
    (addEdge g e).edges = g.edges ++ [e] := by
  show ((addNodeIfAbsent (addNodeIfAbsent g e.u []) e.v []).edges ++ [e]) = g.edges ++ [e]
  rw [edges_addNodeIfAbsent, edges_addNodeIfAbsent]

theorem edges_graphStep (g : IGraph) (r : Row) :
    (graphStep g r).edges = g.edges ++ [⟨r.agA_name, r.agB_name, edgeDataOf r⟩] := by
  rw [graphStep_eq, edges_addEdge, edges_addNodeIfAbsent, edges_addNodeIfAbsent]

/-- C10: the null-endpoint test compares only with the `None` object, so a
row whose A-endpoint name is a float NaN is not skipped, not counted, and
creates a node keyed by NaN and an edge incident to it. -/
theorem nan_endpoint_not_skipped (r : Row) (hA : r.agA_name = PyVal.pynan)
    (hB : r.agB_name ≠ PyVal.pynone) :
    isNullRow r = false ∧
    ∃ res, from_df ⟨mandatory_columns, [r]⟩ = Except.ok res ∧
      res.skipped = 0 ∧ res.logs = [] ∧
      PyVal.pynan ∈ res.graph.nodeNames ∧
      ∃ e ∈ res.graph.edges, e.u = PyVal.pynan := by
  have hnull : isNullRow r = false := by
    simp [isNullRow, hA, hB]
  have hst : buildRows 0 ⟨IGraph.empty, 0, []⟩ [r] =
      ⟨graphStep IGraph.empty r, 0, []⟩ := by
    simp [buildRows, processRow, hnull]
  refine ⟨hnull, ⟨graphStep IGraph.empty r, 0, []⟩, ?_, rfl, rfl, ?_, ?_⟩
  · unfold from_df
    rw [if_pos (fun c hc => hc)]
    simp [hst]
  · exact hA ▸ agA_mem_graphStep IGraph.empty r
  · refine ⟨⟨r.agA_name, r.agB_name, edgeDataOf r⟩, ?_, hA⟩
    rw [edges_graphStep]
    simp [IGraph.empty]

/-- Witness for C10 at `exRowNan` (A-endpoint NaN, B-endpoint a string):
the row is processed, not skipped. -/
theorem nan_endpoint_not_skipped_witness :
    isNullRow exRowNan = false ∧
    ∃ res, from_df ⟨mandatory_columns, [exRowNan]⟩ = Except.ok res ∧
      res.skipped = 0 ∧ res.logs = [] ∧
      PyVal.pynan ∈ res.graph.nodeNames ∧
      ∃ e ∈ res.graph.edges, e.u = PyVal.pynan :=
  nan_endpoint_not_skipped exRowNan rfl (by decide)
